import Mathlib

/-!
Shallow embedding of `src/zip/zip_archive_writer.ts` (jsziptools).

The archive engine `ZipArchiveWriter` keeps a running byte offset, a set of
already-written directory paths, and the pending list of central-directory
records; it emits binary records through an event sink.  Byte sequences are
modelled as `List Nat` (each element a byte value), `DataView.setUint16` /
`setUint32` little-endian stores as explicit `% 256` decompositions, and the
event sink as an ordered trace of emitted chunks, each tagged with the call
site that produced it (local header, file content, data descriptor,
central-directory record, end record, or the terminal `end` event).

The external collaborators that are not part of `src/` are either kept
parametric (the streaming compressor `deflate`) or modelled from the spec
(`crc32`, `toBytes`, and the four record signatures), as noted on each
definition.
-/

/-- Calendar date/time as the engine reads it from the JS `Date` captured at
construction time (`private date = new Date()`).  Field `day` models
`Date.getDay()` (day of week, 0-6), which is what `createDosFileDate`
actually reads in the source. -/
structure DateTime where
  fullYear : Nat
  month : Nat
  day : Nat
  hours : Nat
  minutes : Nat
  seconds : Nat
  deriving DecidableEq

/-- Source `createDosFileDate` (zip_archive_writer.ts:224-226):
`((date.getFullYear() - 1980) << 9) | ((date.getMonth() + 1) << 5) | date.getDay()`. -/
def createDosFileDate (date : DateTime) : Nat :=
  ((date.fullYear - 1980) <<< 9) ||| ((date.month + 1) <<< 5) ||| date.day

/-- Source `createDosFileTime` (zip_archive_writer.ts:228-230):
`(date.getHours() << 11) | (date.getMinutes() << 5) | (date.getSeconds() >> 1)`. -/
def createDosFileTime (date : DateTime) : Nat :=
  (date.hours <<< 11) ||| (date.minutes <<< 5) ||| (date.seconds >>> 1)

/-- The two bytes stored by `DataView.setUint16(_, n, true)` (little-endian). -/
def le16 (n : Nat) : List Nat := [n % 256, n / 256 % 256]

/-- The four bytes stored by `DataView.setUint32(_, n, true)` (little-endian). -/
def le32 (n : Nat) : List Nat := [n % 256, n / 256 % 256, n / 65536 % 256, n / 16777216 % 256]

/-- The two bytes stored by `DataView.setUint16(_, n)` with no little-endian
flag (big-endian); used by the source only for the flags field `0x0808`,
whose two bytes coincide in either order. -/
def be16 (n : Nat) : List Nat := [n / 256 % 256, n % 256]

/-- Modelled from the spec: signature `PK\x03\x04`; the constant is imported
from `../common`, which is not under `src/`. -/
def LOCAL_FILE_SIGNATURE : Nat := 0x04034b50

/-- Modelled from the spec: signature `PK\x07\x08` (from `../common`). -/
def DATA_DESCRIPTOR_SIGNATURE : Nat := 0x08074b50

/-- Modelled from the spec: signature `PK\x01\x02` (from `../common`). -/
def CENTRAL_DIR_SIGNATURE : Nat := 0x02014b50

/-- Modelled from the spec: signature `PK\x05\x06` (from `../common`). -/
def END_SIGNATURE : Nat := 0x06054b50

/-- Standard UTF-8 encoding of one character. -/
def utf8Bytes (c : Char) : List Nat :=
  let n := c.toNat
  if n < 0x80 then [n]
  else if n < 0x800 then
    [0xC0 ||| (n >>> 6), 0x80 ||| (n &&& 0x3F)]
  else if n < 0x10000 then
    [0xE0 ||| (n >>> 12), 0x80 ||| ((n >>> 6) &&& 0x3F), 0x80 ||| (n &&& 0x3F)]
  else
    [0xF0 ||| (n >>> 18), 0x80 ||| ((n >>> 12) &&& 0x3F),
     0x80 ||| ((n >>> 6) &&& 0x3F), 0x80 ||| (n &&& 0x3F)]

/-- Modelled from the spec: `toBytes` from `../common` (not under `src/`)
converts a path string to its byte representation; the spec fixes the name
encoding as UTF-8 (general-purpose flag "name is UTF-8 encoded").  Buffers
(`BufferLike` content) are modelled directly as byte lists, for which
`toBytes` is the identity. -/
def toBytes (s : String) : List Nat :=
  s.data.foldr (fun c acc => utf8Bytes c ++ acc) []

/-- One round of the reflected CRC-32 shift register. -/
def crc32Round (c : Nat) : Nat :=
  if c % 2 = 1 then (c >>> 1) ^^^ 0xEDB88320 else c >>> 1

/-- Iterate `crc32Round`. -/
def crc32Rounds : Nat → Nat → Nat
  | 0, c => c
  | n + 1, c => crc32Rounds n (crc32Round c)

/-- Modelled from the spec: `crc32` from `../core` (not under `src/`); the
spec fixes it as the standard ZIP CRC-32 (reflected polynomial 0xEDB88320)
over the uncompressed bytes. -/
def crc32 (bytes : List Nat) : Nat :=
  (bytes.foldl (fun c b => crc32Rounds 8 (c ^^^ b % 256)) 0xFFFFFFFF) ^^^ 0xFFFFFFFF

/-- The external streaming compressor `deflate` from `../stream/core` (not
under `src/`): given the raw bytes and the level it delivers, synchronously
and in order, the list of compressed chunks through its callback.  The model
is parametric in it; the opaque `shareMemory`/`chunkSize` pass-through
options are absorbed into the parameter. -/
abbrev Deflate := List Nat → Nat → List (List Nat)

/-- Source `createLocalFileHeader` (zip_archive_writer.ts:123-149): a
`30 + fileName.length` byte record; the 12 crc/size bytes and the 2
extra-field-length bytes are left zero-filled by the `ArrayBuffer`. -/
def createLocalFileHeader (fileName : List Nat) (date : DateTime) (isDeflated : Bool) : List Nat :=
  le32 LOCAL_FILE_SIGNATURE ++ le16 20 ++ be16 0x0808 ++
    le16 (if isDeflated then 8 else 0) ++
    le16 (createDosFileTime date) ++ le16 (createDosFileDate date) ++
    List.replicate 12 0 ++ le16 fileName.length ++ le16 0 ++ fileName

/-- Source `createDataDescriptor` (zip_archive_writer.ts:151-158): 16 bytes. -/
def createDataDescriptor (crc compressedSize uncompressedSize : Nat) : List Nat :=
  le32 DATA_DESCRIPTOR_SIGNATURE ++ le32 crc ++ le32 compressedSize ++ le32 uncompressedSize

/-- Source `createCentralDirHeader` (zip_archive_writer.ts:160-205): a
`46 + fileName.length` byte record; the 12 bytes for extra/comment lengths,
disk number and attributes stay zero-filled; the local-header offset is the
little-endian 32-bit field at bytes 42-45. -/
def createCentralDirHeader (fileName : List Nat) (date : DateTime) (isDeflated : Bool)
    (fileOffset uncompressedSize compressedSize crc : Nat) : List Nat :=
  le32 CENTRAL_DIR_SIGNATURE ++ le16 20 ++ le16 20 ++ be16 0x0808 ++
    le16 (if isDeflated then 8 else 0) ++
    le16 (createDosFileTime date) ++ le16 (createDosFileDate date) ++
    le32 crc ++ le32 compressedSize ++ le32 uncompressedSize ++
    le16 fileName.length ++ List.replicate 12 0 ++ le32 fileOffset ++ fileName

/-- Source `createEndCentDirHeader` (zip_archive_writer.ts:207-222): the
22-byte end record; the two entry-count fields (bytes 8-9 and 10-11) both
store `numberOfCentralDirs` as 16-bit little-endian values. -/
def createEndCentDirHeader (numberOfCentralDirs centralDirHeaderSize centralDirStartOffset : Nat) :
    List Nat :=
  le32 END_SIGNATURE ++ le16 0 ++ le16 0 ++
    le16 numberOfCentralDirs ++ le16 numberOfCentralDirs ++
    le32 centralDirHeaderSize ++ le32 centralDirStartOffset ++ le16 0

/-- Which call site of `this.trigger` produced an emitted chunk (the `data`
events of `writeDir`, `writeFile` and `writeEnd`, plus the terminal `end`
event, which carries no bytes). -/
inductive ChunkKind where
  | localHeader
  | fileData
  | dataDescriptor
  | centralDirHeader
  | endRecord
  | streamEnd
  deriving DecidableEq

/-- One event delivered to the sink: the emitting call site and the bytes. -/
structure Chunk where
  kind : ChunkKind
  bytes : List Nat
  deriving DecidableEq

/-- State of the engine (zip_archive_writer.ts:28-40): the directory-path
set `dirs` (object-as-map keys), the pending central-directory records, the
running `offset`, the `Date` captured once at construction, plus the ordered
trace of everything emitted through the sink. -/
structure ZipArchiveWriter where
  dirs : List String
  centralDirHeaders : List (List Nat)
  offset : Nat
  date : DateTime
  output : List Chunk
  deriving DecidableEq

/-- A fresh engine: `new ZipArchiveWriter()` with construction time `d`. -/
def ZipArchiveWriter.init (d : DateTime) : ZipArchiveWriter :=
  { dirs := [], centralDirHeaders := [], offset := 0, date := d, output := [] }

/-- The JS test `/.+\/$/.test(path)` (zip_archive_writer.ts:52): true iff the
string ends in `/` preceded by at least one character that `.` can match
(any character except a newline). -/
def dirSlashTest (path : String) : Bool :=
  match path.data.reverse with
  | '/' :: c :: _ => c != '\n'
  | _ => false

/-- The normalization performed by `writeDir`:
`path += /.+\/$/.test(path) ? '' : '/'`. -/
def normDir (path : String) : String :=
  if dirSlashTest path then path else path ++ "/"

/-- Source `ZipArchiveWriter.writeDir` (zip_archive_writer.ts:50-62).  The
central-directory record is pushed with the current running offset before
the offset is advanced by the emitted local header's length. -/
def ZipArchiveWriter.writeDir (σ : ZipArchiveWriter) (path : String) : ZipArchiveWriter :=
  let path' := normDir path
  if path' ∈ σ.dirs then σ
  else
    let pathAsBytes := toBytes path'
    let localFileHeader := createLocalFileHeader pathAsBytes σ.date false
    { σ with
      dirs := σ.dirs ++ [path']
      centralDirHeaders := σ.centralDirHeaders ++
        [createCentralDirHeader pathAsBytes σ.date false σ.offset 0 0 0]
      output := σ.output ++ [⟨.localHeader, localFileHeader⟩]
      offset := σ.offset + localFileHeader.length }

/-- Source `ZipArchiveWriter.writeFile` (zip_archive_writer.ts:64-96).
`level` is a `Nat` with `0` playing the role of both `0` and `undefined`
(the source only tests truthiness: `if (level)` / `!!level`).  In the
deflated branch the emitted content chunks are those delivered by the
compressor and `compressedSize` accumulates their lengths; in the stored
branch the raw bytes are emitted as one chunk and
`compressedSize = bytes.length`. -/
def ZipArchiveWriter.writeFile (df : Deflate) (σ : ZipArchiveWriter) (path : String)
    (buffer : List Nat) (level : Nat) : ZipArchiveWriter :=
  let pathAsBytes := toBytes path
  let localFileHeader := createLocalFileHeader pathAsBytes σ.date (level != 0)
  let contentChunks := if level = 0 then [buffer] else df buffer level
  let compressedSize := if level = 0 then buffer.length else ((df buffer level).map List.length).sum
  let c := crc32 buffer
  let dataDescriptor := createDataDescriptor c compressedSize buffer.length
  { σ with
    centralDirHeaders := σ.centralDirHeaders ++
      [createCentralDirHeader pathAsBytes σ.date (level != 0) σ.offset buffer.length compressedSize c]
    output := σ.output ++ ⟨.localHeader, localFileHeader⟩ ::
      (contentChunks.map (fun b => ⟨.fileData, b⟩) ++ [⟨.dataDescriptor, dataDescriptor⟩])
    offset := σ.offset + localFileHeader.length + compressedSize + dataDescriptor.length }

/-- `String.split('/')` of JS, as structural recursion over the characters. -/
def splitSegs : List Char → List (List Char)
  | [] => [[]]
  | c :: cs =>
    let r := splitSegs cs
    if c = '/' then [] :: r
    else
      match r with
      | [] => [[c]]
      | s :: rest => (c :: s) :: rest

/-- `path.split('/')` (zip_archive_writer.ts:43). -/
def splitOnSlash (path : String) : List String :=
  (splitSegs path.data).map String.mk

/-- Source `ZipArchiveWriter.write` (zip_archive_writer.ts:42-48):
`path.split('/').reduce((parent, child) => { this.writeDir(parent + '/'); return parent + '/' + child; })`
followed by `this.writeFile(path, buffer, level)`.  JS `reduce` without an
initial value starts from the first element and never invokes the callback
for a single-element array; `split` never returns an empty array, so the
`[]` case below is unreachable. -/
def ZipArchiveWriter.write (df : Deflate) (σ : ZipArchiveWriter) (path : String)
    (buffer : List Nat) (level : Nat) : ZipArchiveWriter :=
  match splitOnSlash path with
  | [] => ZipArchiveWriter.writeFile df σ path buffer level
  | p₀ :: rest =>
    let acc := rest.foldl
      (fun a child => (ZipArchiveWriter.writeDir a.1 (a.2 ++ "/"), a.2 ++ "/" ++ child))
      (σ, p₀)
    ZipArchiveWriter.writeFile df acc.1 path buffer level

/-- Total byte length of the pending central directory, as accumulated by
`writeEnd`'s `forEach` loop. -/
def centralDirSize (σ : ZipArchiveWriter) : Nat :=
  (σ.centralDirHeaders.map List.length).sum

/-- Source `ZipArchiveWriter.writeEnd` (zip_archive_writer.ts:98-106): emits
every pending central-directory record in insertion order, then the end
record built from the pending count, their total size and the current
running offset, then the terminal `end` event.  Note that `offset` is not
advanced and no other state is touched. -/
def ZipArchiveWriter.writeEnd (σ : ZipArchiveWriter) : ZipArchiveWriter :=
  { σ with
    output := σ.output ++ σ.centralDirHeaders.map (fun h => ⟨.centralDirHeader, h⟩) ++
      [⟨.endRecord, createEndCentDirHeader σ.centralDirHeaders.length (centralDirSize σ) σ.offset⟩,
       ⟨.streamEnd, []⟩] }

/-- One public engine call, for quantifying over call sequences. -/
inductive Op where
  | opWriteDir (path : String)
  | opWriteFile (path : String) (buffer : List Nat) (level : Nat)
  | opWriteEnd
  deriving DecidableEq

/-- Whether an operation is the `writeEnd` call. -/
def Op.isWriteEnd : Op → Bool
  | .opWriteEnd => true
  | _ => false

/-- Run one public call. -/
def runOp (df : Deflate) (σ : ZipArchiveWriter) : Op → ZipArchiveWriter
  | .opWriteDir p => σ.writeDir p
  | .opWriteFile p b l => ZipArchiveWriter.writeFile df σ p b l
  | .opWriteEnd => σ.writeEnd

/-- Run a sequence of public calls. -/
def runOps (df : Deflate) (σ : ZipArchiveWriter) (ops : List Op) : ZipArchiveWriter :=
  ops.foldl (runOp df) σ

/-- Sum of the byte lengths of every chunk emitted so far. -/
def chunkLenSum (out : List Chunk) : Nat :=
  (out.map (fun c => c.bytes.length)).sum

/-- Decode the 16-bit little-endian field at byte offset `i`. -/
def readLE16 (l : List Nat) (i : Nat) : Nat :=
  l.getD i 0 + 256 * l.getD (i + 1) 0

/-- Decode the 32-bit little-endian field at byte offset `i`. -/
def readLE32 (l : List Nat) (i : Nat) : Nat :=
  l.getD i 0 + 256 * l.getD (i + 1) 0 + 65536 * l.getD (i + 2) 0 + 16777216 * l.getD (i + 3) 0

/-- The `writeDir` arguments generated by `write`'s reduce, given the first
path segment and the remaining segments: the proper directory prefixes, each
with a trailing slash, shortest first. -/
def prefAux : String → List String → List String
  | _, [] => []
  | parent, child :: rest => (parent ++ "/") :: prefAux (parent ++ "/" ++ child) rest

/-- The proper directory prefixes of a path (every prefix ending before the
final `/`-separated segment), each with a trailing slash, shortest first. -/
def properDirPrefixes (path : String) : List String :=
  match splitOnSlash path with
  | [] => []
  | p₀ :: rest => prefAux p₀ rest

/-- Join path segments with `/` separators (the string the reduce
accumulator holds after consuming those segments). -/
def joinPath : List String → String
  | [] => ""
  | s :: rest => rest.foldl (fun a b => a ++ "/" ++ b) s

/-- Directory-path normalization as the idempotence claim words it: append a
trailing slash exactly when one is absent.  This follows the claim text, not
the source; it differs from the source's `/.+\/$/` test on the input `"/"`. -/
def specDirNormalize (p : String) : String :=
  match p.data.reverse with
  | '/' :: _ => p
  | _ => p ++ "/"

/-- A fixed construction time for concrete runs. -/
def d0 : DateTime := ⟨2021, 3, 2, 10, 20, 30⟩

/-- A concrete compressor instance for concrete runs (its behavior is
irrelevant to the stored-mode scenarios that use it). -/
def df0 : Deflate := fun b _ => [b]

/-- `n` successive `writeFile("a", [], 0)` calls. -/
def repeatWriteFile : Nat → ZipArchiveWriter → ZipArchiveWriter
  | 0, σ => σ
  | n + 1, σ => repeatWriteFile n (ZipArchiveWriter.writeFile df0 σ "a" [] 0)

/-- The four bytes that both header encoders store for the packed
time/date fields of a given calendar time. -/
def dosTimeDateBytes (d : DateTime) : List Nat :=
  le16 (createDosFileTime d) ++ le16 (createDosFileDate d)

/-- The date-constancy property of one emitted chunk: if it is a local file
header its packed time/date field (bytes 10-13) encodes `d`; if it is a
central-directory record its packed time/date field (bytes 12-15) encodes `d`. -/
def chunkDateOk (d : DateTime) (c : Chunk) : Prop :=
  (c.kind = .localHeader → ((c.bytes.drop 10).take 4 = dosTimeDateBytes d)) ∧
  (c.kind = .centralDirHeader → ((c.bytes.drop 12).take 4 = dosTimeDateBytes d))

/-- The running-offset invariant the spec calls load-bearing: the `offset`
field equals the sum of the lengths of every chunk emitted so far. -/
def OffsetInv (σ : ZipArchiveWriter) : Prop :=
  σ.offset = chunkLenSum σ.output

/-- The date-constancy property of one pending central-directory record. -/
def centralDateOk (d : DateTime) (r : List Nat) : Prop :=
  (r.drop 12).take 4 = dosTimeDateBytes d

/-- Date-constancy invariant: the stored date is the construction date, and
every pending central-directory record and every emitted header chunk
encodes it. -/
def dateInv (d : DateTime) (σ : ZipArchiveWriter) : Prop :=
  σ.date = d ∧ (∀ r ∈ σ.centralDirHeaders, centralDateOk d r) ∧ (∀ c ∈ σ.output, chunkDateOk d c)

theorem le16_recompose (n : Nat) : n % 256 + 256 * (n / 256 % 256) = n % 65536 := by
  omega

theorem le32_recompose (n : Nat) :
    n % 256 + 256 * (n / 256 % 256) + 65536 * (n / 65536 % 256) + 16777216 * (n / 16777216 % 256)
      = n % 4294967296 := by
  omega

theorem readLE16_endCount8 (n s o : Nat) :
    readLE16 (createEndCentDirHeader n s o) 8 = n % 65536 := by
  have h : readLE16 (createEndCentDirHeader n s o) 8 = n % 256 + 256 * (n / 256 % 256) := rfl
  rw [h, le16_recompose]

theorem readLE16_endCount10 (n s o : Nat) :
    readLE16 (createEndCentDirHeader n s o) 10 = n % 65536 := by
  have h : readLE16 (createEndCentDirHeader n s o) 10 = n % 256 + 256 * (n / 256 % 256) := rfl
  rw [h, le16_recompose]

theorem readLE32_central_fileOffset (pb : List Nat) (d : DateTime) (fl : Bool)
    (off us cs c : Nat) :
    readLE32 (createCentralDirHeader pb d fl off us cs c) 42 = off % 4294967296 := by
  have h : readLE32 (createCentralDirHeader pb d fl off us cs c) 42 =
      off % 256 + 256 * (off / 256 % 256) + 65536 * (off / 65536 % 256) +
        16777216 * (off / 16777216 % 256) := rfl
  rw [h, le32_recompose]

theorem createEndCentDirHeader_length (n s o : Nat) :
    (createEndCentDirHeader n s o).length = 22 := rfl

theorem createDataDescriptor_length (c cs us : Nat) :
    (createDataDescriptor c cs us).length = 16 := rfl

theorem chunkLenSum_append (a b : List Chunk) :
    chunkLenSum (a ++ b) = chunkLenSum a + chunkLenSum b := by
  simp [chunkLenSum]

theorem chunkLenSum_cons (c : Chunk) (out : List Chunk) :
    chunkLenSum (c :: out) = c.bytes.length + chunkLenSum out := by
  simp [chunkLenSum]

theorem chunkLenSum_map_tag (k : ChunkKind) (L : List (List Nat)) :
    chunkLenSum (L.map (fun b => ⟨k, b⟩)) = (L.map List.length).sum := by
  unfold chunkLenSum
  rw [List.map_map]
  rfl

/-- `writeFile`, written out: the new central-directory record, the emitted
chunk sequence (local header, content, descriptor) and the offset advance. -/
theorem writeFile_eq (df : Deflate) (σ : ZipArchiveWriter) (p : String) (b : List Nat)
    (l : Nat) :
    ZipArchiveWriter.writeFile df σ p b l = { σ with
      centralDirHeaders := σ.centralDirHeaders ++
        [createCentralDirHeader (toBytes p) σ.date (l != 0) σ.offset b.length
          (if l = 0 then b.length else ((df b l).map List.length).sum) (crc32 b)]
      output := σ.output ++ ⟨.localHeader, createLocalFileHeader (toBytes p) σ.date (l != 0)⟩ ::
        ((if l = 0 then [b] else df b l).map (fun bb => ⟨.fileData, bb⟩) ++
          [⟨.dataDescriptor, createDataDescriptor (crc32 b)
            (if l = 0 then b.length else ((df b l).map List.length).sum) b.length⟩])
      offset := σ.offset + (createLocalFileHeader (toBytes p) σ.date (l != 0)).length +
        (if l = 0 then b.length else ((df b l).map List.length).sum) +
        (createDataDescriptor (crc32 b)
          (if l = 0 then b.length else ((df b l).map List.length).sum) b.length).length } :=
  rfl

/-- `writeEnd`, written out: only the output trace changes. -/
theorem writeEnd_eq (σ : ZipArchiveWriter) :
    σ.writeEnd = { σ with
      output := σ.output ++ σ.centralDirHeaders.map (fun h => ⟨.centralDirHeader, h⟩) ++
        [⟨.endRecord,
            createEndCentDirHeader σ.centralDirHeaders.length (centralDirSize σ) σ.offset⟩,
         ⟨.streamEnd, []⟩] } :=
  rfl

/-- `writeEnd` emits the end record built from the pending count, the total
central-directory size and the current offset. -/
theorem endRecord_mem_writeEnd (σ : ZipArchiveWriter) :
    (⟨.endRecord, createEndCentDirHeader σ.centralDirHeaders.length (centralDirSize σ) σ.offset⟩ :
      Chunk) ∈ σ.writeEnd.output := by
  simp [ZipArchiveWriter.writeEnd]

/-- C7.  Stored round-trip: a `writeFile` with `level = 0` (the model of
both `0` and an absent level, which the source only tests for truthiness)
emits, between the local header and the trailing descriptor, exactly one
content chunk holding the input bytes unmodified; the descriptor and the
appended central-directory record both carry `compressedSize` and `rawSize`
fields built from the same value `buffer.length`, so the two 32-bit fields
coincide in each record. -/
theorem c7_stored_roundtrip (df : Deflate) (σ : ZipArchiveWriter) (p : String) (b : List Nat) :
    (ZipArchiveWriter.writeFile df σ p b 0).output =
      σ.output ++ [⟨.localHeader, createLocalFileHeader (toBytes p) σ.date false⟩,
        ⟨.fileData, b⟩,
        ⟨.dataDescriptor, createDataDescriptor (crc32 b) b.length b.length⟩] ∧
    readLE32 (createDataDescriptor (crc32 b) b.length b.length) 8 =
      readLE32 (createDataDescriptor (crc32 b) b.length b.length) 12 ∧
    (ZipArchiveWriter.writeFile df σ p b 0).centralDirHeaders =
      σ.centralDirHeaders ++
        [createCentralDirHeader (toBytes p) σ.date false σ.offset b.length b.length (crc32 b)] ∧
    readLE32 (createCentralDirHeader (toBytes p) σ.date false σ.offset b.length b.length (crc32 b))
        20 =
      readLE32 (createCentralDirHeader (toBytes p) σ.date false σ.offset b.length b.length (crc32 b))
        24 :=
  ⟨rfl, rfl, rfl, rfl⟩

/-- C3 counterexample.  The claim says a write after `writeEnd` "is rejected
with a signaled misuse error rather than being silently accepted".  The
source has no finished-flag and no error channel: on the concrete engine
below, `writeFile` after `writeEnd` is accepted as usual — it emits three
more chunks, advances the offset from 0 to 51 and appends a central
directory record, changing the already-finalized entry count from 0 to 1. -/
theorem c3_counterexample :
    (ZipArchiveWriter.init d0).writeEnd.offset = 0 ∧
    (ZipArchiveWriter.init d0).writeEnd.centralDirHeaders.length = 0 ∧
    (ZipArchiveWriter.writeFile df0 (ZipArchiveWriter.init d0).writeEnd "a.txt" [] 0).offset = 51 ∧
    (ZipArchiveWriter.writeFile df0 (ZipArchiveWriter.init d0).writeEnd "a.txt" []
        0).centralDirHeaders.length = 1 ∧
    (ZipArchiveWriter.writeFile df0 (ZipArchiveWriter.init d0).writeEnd "a.txt" []
        0).output.length = (ZipArchiveWriter.init d0).writeEnd.output.length + 3 := by
  decide

/-- C3 as amended.  After `writeEnd` the engine does not reject further
writes: `writeEnd` leaves `dirs`, `offset` and the central-directory list
untouched, and a subsequent `writeFile` is silently accepted, behaving
exactly as it would have before `writeEnd` (one more central-directory
record, same offset advance, more emitted chunks); guarding is left to the
caller. -/
theorem c3_writes_after_end_accepted (df : Deflate) (σ : ZipArchiveWriter) (p : String)
    (b : List Nat) (l : Nat) :
    σ.writeEnd.dirs = σ.dirs ∧
    σ.writeEnd.offset = σ.offset ∧
    σ.writeEnd.centralDirHeaders = σ.centralDirHeaders ∧
    (ZipArchiveWriter.writeFile df σ.writeEnd p b l).centralDirHeaders.length =
      σ.centralDirHeaders.length + 1 ∧
    (ZipArchiveWriter.writeFile df σ.writeEnd p b l).centralDirHeaders =
      (ZipArchiveWriter.writeFile df σ p b l).centralDirHeaders ∧
    (ZipArchiveWriter.writeFile df σ.writeEnd p b l).offset =
      (ZipArchiveWriter.writeFile df σ p b l).offset ∧
    (ZipArchiveWriter.writeFile df σ.writeEnd p b l).output.length =
      σ.writeEnd.output.length + 2 + (if l = 0 then [b] else df b l).length := by
  refine ⟨rfl, rfl, rfl, ?_, rfl, rfl, ?_⟩
  · simp [ZipArchiveWriter.writeFile, ZipArchiveWriter.writeEnd]
  · simp [ZipArchiveWriter.writeFile, ZipArchiveWriter.writeEnd]
    omega

/-- C10.  The two entry-count fields of the end record (bytes 8-9 and 10-11)
are 16-bit little-endian stores: whatever the engine state, the end record
emitted by `writeEnd` carries the pending central-directory count reduced
mod 2^16 in both fields, so 65536 or more entries wrap silently (`writeEnd`
is total — it never fails). -/
theorem c10_end_counts_are_mod_2_16 (σ : ZipArchiveWriter) :
    readLE16 (createEndCentDirHeader σ.centralDirHeaders.length (centralDirSize σ) σ.offset) 8 =
      σ.centralDirHeaders.length % 2 ^ 16 ∧
    readLE16 (createEndCentDirHeader σ.centralDirHeaders.length (centralDirSize σ) σ.offset) 10 =
      σ.centralDirHeaders.length % 2 ^ 16 ∧
    (⟨.endRecord, createEndCentDirHeader σ.centralDirHeaders.length (centralDirSize σ) σ.offset⟩ :
      Chunk) ∈ σ.writeEnd.output := by
  refine ⟨?_, ?_, endRecord_mem_writeEnd σ⟩
  · rw [readLE16_endCount8]; norm_num
  · rw [readLE16_endCount10]; norm_num

theorem repeatWriteFile_count (n : Nat) (σ : ZipArchiveWriter) :
    (repeatWriteFile n σ).centralDirHeaders.length = σ.centralDirHeaders.length + n := by
  induction n generalizing σ with
  | zero => rfl
  | succ k ih =>
    rw [repeatWriteFile, ih]
    simp [ZipArchiveWriter.writeFile]
    omega

/-- C8 counterexample.  The claim asserts the end record's count fields
equal the pending central-directory length for every number of prior
writes.  After 65536 `writeFile` calls on a fresh engine the pending list
has length 65536, yet both 16-bit count fields of the end record emitted by
`writeEnd` read back as 0. -/
theorem c8_counterexample :
    (repeatWriteFile 65536 (ZipArchiveWriter.init d0)).centralDirHeaders.length = 65536 ∧
    readLE16 (createEndCentDirHeader
        (repeatWriteFile 65536 (ZipArchiveWriter.init d0)).centralDirHeaders.length
        (centralDirSize (repeatWriteFile 65536 (ZipArchiveWriter.init d0)))
        (repeatWriteFile 65536 (ZipArchiveWriter.init d0)).offset) 8 = 0 ∧
    readLE16 (createEndCentDirHeader
        (repeatWriteFile 65536 (ZipArchiveWriter.init d0)).centralDirHeaders.length
        (centralDirSize (repeatWriteFile 65536 (ZipArchiveWriter.init d0)))
        (repeatWriteFile 65536 (ZipArchiveWriter.init d0)).offset) 10 = 0 ∧
    (⟨.endRecord, createEndCentDirHeader
        (repeatWriteFile 65536 (ZipArchiveWriter.init d0)).centralDirHeaders.length
        (centralDirSize (repeatWriteFile 65536 (ZipArchiveWriter.init d0)))
        (repeatWriteFile 65536 (ZipArchiveWriter.init d0)).offset⟩ : Chunk) ∈
      (repeatWriteFile 65536 (ZipArchiveWriter.init d0)).writeEnd.output ∧
    (0 : Nat) ≠ 65536 := by
  have hl : (repeatWriteFile 65536 (ZipArchiveWriter.init d0)).centralDirHeaders.length = 65536 :=
    repeatWriteFile_count 65536 (ZipArchiveWriter.init d0)
  refine ⟨hl, ?_, ?_, endRecord_mem_writeEnd _, by omega⟩
  · rw [readLE16_endCount8, hl]
  · rw [readLE16_endCount10, hl]

/-- C8 as amended.  The end record's two count fields equal the pending
central-directory length reduced mod 2^16; in particular they equal the
length itself exactly when fewer than 65536 entries are pending (including
the zero-entry case). -/
theorem c8_end_counts_small (σ : ZipArchiveWriter)
    (h : σ.centralDirHeaders.length < 2 ^ 16) :
    readLE16 (createEndCentDirHeader σ.centralDirHeaders.length (centralDirSize σ) σ.offset) 8 =
      σ.centralDirHeaders.length ∧
    readLE16 (createEndCentDirHeader σ.centralDirHeaders.length (centralDirSize σ) σ.offset) 10 =
      σ.centralDirHeaders.length ∧
    (⟨.endRecord, createEndCentDirHeader σ.centralDirHeaders.length (centralDirSize σ) σ.offset⟩ :
      Chunk) ∈ σ.writeEnd.output := by
  refine ⟨?_, ?_, endRecord_mem_writeEnd σ⟩
  · rw [readLE16_endCount8]; omega
  · rw [readLE16_endCount10]; omega

/-- Witness for `c8_end_counts_small`: a fresh engine has 0 pending entries,
and the end record's count fields both read back 0. -/
theorem c8_end_counts_small_witness :
    (ZipArchiveWriter.init d0).centralDirHeaders.length < 2 ^ 16 ∧
    readLE16 (createEndCentDirHeader (ZipArchiveWriter.init d0).centralDirHeaders.length
        (centralDirSize (ZipArchiveWriter.init d0)) (ZipArchiveWriter.init d0).offset) 8 =
      (ZipArchiveWriter.init d0).centralDirHeaders.length :=
  ⟨by decide, (c8_end_counts_small (ZipArchiveWriter.init d0) (by decide)).1⟩

/-- A `writeDir` whose normalized path was already written is a no-op
(zip_archive_writer.ts:53: the `if (!this.dirs[path])` guard). -/
theorem writeDir_mem (σ : ZipArchiveWriter) (p : String) (h : normDir p ∈ σ.dirs) :
    σ.writeDir p = σ := by
  simp [ZipArchiveWriter.writeDir, h]

/-- A `writeDir` of a fresh normalized path marks it written, emits its
local header, appends its central-directory record built with the current
offset, and advances the offset by the header length. -/
theorem writeDir_not_mem (σ : ZipArchiveWriter) (p : String) (h : normDir p ∉ σ.dirs) :
    σ.writeDir p = { σ with
      dirs := σ.dirs ++ [normDir p]
      centralDirHeaders := σ.centralDirHeaders ++
        [createCentralDirHeader (toBytes (normDir p)) σ.date false σ.offset 0 0 0]
      output := σ.output ++
        [⟨.localHeader, createLocalFileHeader (toBytes (normDir p)) σ.date false⟩]
      offset := σ.offset + (createLocalFileHeader (toBytes (normDir p)) σ.date false).length } := by
  simp [ZipArchiveWriter.writeDir, h]

/-- C2 counterexample.  The claim's call is `writeFile`, which in the source
does not auto-create parent directory entries (only the `write` helper
does): on a fresh engine, `writeFile("a/b.txt", "hi", 0)` then `writeEnd`
yields no directory entry at all (`dirs` stays empty), a central directory
with a single entry, and an end record whose two count fields are both 1,
not 2. -/
theorem c2_counterexample :
    (ZipArchiveWriter.writeFile df0 (ZipArchiveWriter.init d0) "a/b.txt" (toBytes "hi") 0).dirs
        = [] ∧
    (ZipArchiveWriter.writeFile df0 (ZipArchiveWriter.init d0) "a/b.txt" (toBytes "hi")
        0).centralDirHeaders.length = 1 ∧
    (⟨.endRecord, createEndCentDirHeader 1 53 55⟩ : Chunk) ∈
      (ZipArchiveWriter.writeFile df0 (ZipArchiveWriter.init d0) "a/b.txt" (toBytes "hi")
        0).writeEnd.output ∧
    readLE16 (createEndCentDirHeader 1 53 55) 8 = 1 ∧
    readLE16 (createEndCentDirHeader 1 53 55) 10 = 1 ∧
    (1 : Nat) ≠ 2 := by
  decide

/-- C2 as amended.  The spec scenario holds for the path-expanding helper
`write` (the spec's `writePath`): on a fresh engine,
`write("a/b.txt", "hi", 0)` then `writeEnd` produces exactly one directory
entry `a/` (zero sizes and checksum) and one file entry `a/b.txt` (local
header offset 32, sizes 2), a central directory with entry count 2, and an
end record whose two count fields are both 2. -/
theorem c2_write_scenario :
    (ZipArchiveWriter.write df0 (ZipArchiveWriter.init d0) "a/b.txt" (toBytes "hi") 0).dirs
        = ["a/"] ∧
    (ZipArchiveWriter.write df0 (ZipArchiveWriter.init d0) "a/b.txt" (toBytes "hi")
        0).centralDirHeaders =
      [createCentralDirHeader (toBytes "a/") d0 false 0 0 0 0,
       createCentralDirHeader (toBytes "a/b.txt") d0 false 32 2 2 (crc32 (toBytes "hi"))] ∧
    (⟨.endRecord, createEndCentDirHeader 2 101 87⟩ : Chunk) ∈
      (ZipArchiveWriter.write df0 (ZipArchiveWriter.init d0) "a/b.txt" (toBytes "hi")
        0).writeEnd.output ∧
    readLE16 (createEndCentDirHeader 2 101 87) 8 = 2 ∧
    readLE16 (createEndCentDirHeader 2 101 87) 10 = 2 := by
  decide

/-- C6 counterexample.  The claim normalizes by "appending a trailing slash
when absent"; under that normalization `""` and `"/"` agree (both become
`"/"`), yet the source's `/.+\/$/` test sends `"/"` to `"//"`, so the two
calls below each emit a local header and append a central-directory record:
two records and a second emission instead of the claimed single one. -/
theorem c6_counterexample :
    specDirNormalize "" = specDirNormalize "/" ∧
    (((ZipArchiveWriter.init d0).writeDir "").writeDir "/").centralDirHeaders.length = 2 ∧
    (((ZipArchiveWriter.init d0).writeDir "").writeDir "/").output.length =
      ((ZipArchiveWriter.init d0).writeDir "").output.length + 1 ∧
    (((ZipArchiveWriter.init d0).writeDir "").writeDir "/").offset ≠
      ((ZipArchiveWriter.init d0).writeDir "").offset ∧
    (2 : Nat) ≠ 1 := by
  decide

/-- C6 as amended.  With the source's normalization (append a slash unless
the path already ends in `/` preceded by at least one non-newline
character), `writeDir` is idempotent: two calls whose arguments normalize
to the same string leave the engine exactly as after the first call, and
when the path was fresh the first call emits exactly one local header and
appends exactly one central-directory record. -/
theorem c6_writeDir_idempotent (σ : ZipArchiveWriter) (p q : String)
    (h : normDir p = normDir q) :
    (σ.writeDir p).writeDir q = σ.writeDir p ∧
    (normDir p ∉ σ.dirs →
      (σ.writeDir p).output =
        σ.output ++ [⟨.localHeader, createLocalFileHeader (toBytes (normDir p)) σ.date false⟩] ∧
      (σ.writeDir p).centralDirHeaders =
        σ.centralDirHeaders ++
          [createCentralDirHeader (toBytes (normDir p)) σ.date false σ.offset 0 0 0]) := by
  constructor
  · by_cases hmem : normDir p ∈ σ.dirs
    · rw [writeDir_mem σ p hmem, writeDir_mem σ q (h ▸ hmem)]
    · rw [writeDir_not_mem σ p hmem]
      apply writeDir_mem
      rw [← h]
      simp
  · intro hmem
    rw [writeDir_not_mem σ p hmem]
    exact ⟨rfl, rfl⟩

/-- Witness for `c6_writeDir_idempotent`: `"a"` and `"a/"` normalize to the
same directory path, and the second `writeDir` is a no-op. -/
theorem c6_writeDir_idempotent_witness :
    normDir "a" = normDir "a/" ∧
    (((ZipArchiveWriter.init d0).writeDir "a").writeDir "a/" =
      (ZipArchiveWriter.init d0).writeDir "a") :=
  ⟨by decide, (c6_writeDir_idempotent (ZipArchiveWriter.init d0) "a" "a/" (by decide)).1⟩

/-- C4.  The local-header-offset field (the 32-bit little-endian field at
bytes 42-45) of the central-directory record appended by `writeFile` or by
a non-duplicate `writeDir` equals the running offset at the moment that
entry's local header was emitted: `writeFile` captures `offset` before
emitting the local header as its first chunk, and `writeDir` builds the
record from the not-yet-advanced `offset`.  The bound on `offset` matches
the spec's scope (32-bit sizes/offsets only; the 64-bit extension is
explicitly excluded). -/
theorem c4_central_record_offset (df : Deflate) (σ : ZipArchiveWriter) (p : String)
    (b : List Nat) (l : Nat) (hoff : σ.offset < 2 ^ 32) :
    (∃ rec, (ZipArchiveWriter.writeFile df σ p b l).centralDirHeaders =
        σ.centralDirHeaders ++ [rec] ∧ readLE32 rec 42 = σ.offset) ∧
    (∃ rest, (ZipArchiveWriter.writeFile df σ p b l).output =
        σ.output ++ ⟨.localHeader, createLocalFileHeader (toBytes p) σ.date (l != 0)⟩ :: rest) ∧
    (normDir p ∉ σ.dirs →
      ∃ rec, (σ.writeDir p).centralDirHeaders = σ.centralDirHeaders ++ [rec] ∧
        readLE32 rec 42 = σ.offset ∧
        (σ.writeDir p).output =
          σ.output ++ [⟨.localHeader, createLocalFileHeader (toBytes (normDir p)) σ.date false⟩]) ∧
    (normDir p ∈ σ.dirs → σ.writeDir p = σ) := by
  have hmod : σ.offset % 4294967296 = σ.offset := Nat.mod_eq_of_lt (by omega)
  refine ⟨⟨_, rfl, ?_⟩, ⟨_, rfl⟩, ?_, writeDir_mem σ p⟩
  · rw [readLE32_central_fileOffset]
    exact hmod
  · intro hmem
    rw [writeDir_not_mem σ p hmem]
    exact ⟨_, rfl, by rw [readLE32_central_fileOffset]; exact hmod, rfl⟩

/-- Witness for `c4_central_record_offset`: on a fresh engine a `writeFile`
appends one record whose offset field reads back 0. -/
theorem c4_central_record_offset_witness :
    (ZipArchiveWriter.init d0).offset < 2 ^ 32 ∧
    (∃ rec, (ZipArchiveWriter.writeFile df0 (ZipArchiveWriter.init d0) "x" [7] 0).centralDirHeaders =
        (ZipArchiveWriter.init d0).centralDirHeaders ++ [rec] ∧
      readLE32 rec 42 = (ZipArchiveWriter.init d0).offset) :=
  ⟨by decide,
    (c4_central_record_offset df0 (ZipArchiveWriter.init d0) "x" [7] 0 (by decide)).1⟩

theorem offsetInv_writeDir (σ : ZipArchiveWriter) (p : String) (h : OffsetInv σ) :
    OffsetInv (σ.writeDir p) := by
  by_cases hmem : normDir p ∈ σ.dirs
  · rw [writeDir_mem σ p hmem]; exact h
  · rw [writeDir_not_mem σ p hmem]
    unfold OffsetInv at h ⊢
    simp [chunkLenSum_append, chunkLenSum, h]

theorem offsetInv_writeFile (df : Deflate) (σ : ZipArchiveWriter) (p : String) (b : List Nat)
    (l : Nat) (h : OffsetInv σ) : OffsetInv (ZipArchiveWriter.writeFile df σ p b l) := by
  unfold OffsetInv at h ⊢
  rw [writeFile_eq]
  show σ.offset + _ + _ + _ = chunkLenSum (σ.output ++ _ :: (_ ++ _))
  rw [chunkLenSum_append, chunkLenSum_cons, chunkLenSum_append, chunkLenSum_map_tag,
    chunkLenSum_cons]
  have hnil : chunkLenSum [] = 0 := rfl
  by_cases hl : l = 0 <;> simp [hl, h, hnil] <;> omega

theorem offsetInv_runOps (df : Deflate) (ops : List Op) :
    ∀ σ : ZipArchiveWriter, (∀ op ∈ ops, op.isWriteEnd = false) → OffsetInv σ →
      OffsetInv (runOps df σ ops) := by
  induction ops with
  | nil => intro σ _ h; exact h
  | cons op rest ih =>
    intro σ hops h
    have hop : op.isWriteEnd = false := hops op (List.mem_cons_self op rest)
    have hrest : ∀ o ∈ rest, o.isWriteEnd = false := fun o ho => hops o (List.mem_cons_of_mem _ ho)
    show OffsetInv (runOps df (runOp df σ op) rest)
    apply ih _ hrest
    cases op with
    | opWriteDir p => exact offsetInv_writeDir σ p h
    | opWriteFile p b l => exact offsetInv_writeFile df σ p b l h
    | opWriteEnd => simp [Op.isWriteEnd] at hop

theorem chunkLenSum_writeEnd (σ : ZipArchiveWriter) :
    chunkLenSum σ.writeEnd.output = chunkLenSum σ.output + centralDirSize σ + 22 := by
  rw [writeEnd_eq]
  show chunkLenSum (σ.output ++ _ ++ _) = _
  rw [chunkLenSum_append, chunkLenSum_append, chunkLenSum_map_tag]
  simp [chunkLenSum, centralDirSize, createEndCentDirHeader_length]

/-- C1.  Running-offset consistency: after any sequence of `writeDir` /
`writeFile` calls on a fresh engine (quantified over the compressor), the
`offset` field equals the sum of the lengths of every chunk emitted so far
— the prefixes of such a sequence are themselves such sequences, so this
covers every public-method boundary — and a closing `writeEnd` brings the
total emitted length to exactly `centralDirStartOffset + totalCentralDirSize
+ 22`, where `centralDirStartOffset` and `totalCentralDirSize` are the very
values passed into the end record (last conjunct). -/
theorem c1_offset_consistency (df : Deflate) (d : DateTime) (ops : List Op)
    (h : ∀ op ∈ ops, op.isWriteEnd = false) :
    (runOps df (ZipArchiveWriter.init d) ops).offset =
      chunkLenSum (runOps df (ZipArchiveWriter.init d) ops).output ∧
    chunkLenSum (runOps df (ZipArchiveWriter.init d) ops).writeEnd.output =
      (runOps df (ZipArchiveWriter.init d) ops).offset +
        centralDirSize (runOps df (ZipArchiveWriter.init d) ops) + 22 ∧
    (⟨.endRecord, createEndCentDirHeader
        (runOps df (ZipArchiveWriter.init d) ops).centralDirHeaders.length
        (centralDirSize (runOps df (ZipArchiveWriter.init d) ops))
        (runOps df (ZipArchiveWriter.init d) ops).offset⟩ : Chunk) ∈
      (runOps df (ZipArchiveWriter.init d) ops).writeEnd.output := by
  have hinv : OffsetInv (runOps df (ZipArchiveWriter.init d) ops) :=
    offsetInv_runOps df ops _ h rfl
  refine ⟨hinv, ?_, endRecord_mem_writeEnd _⟩
  rw [chunkLenSum_writeEnd, ← hinv]

/-- Witness for `c1_offset_consistency`: a concrete directory write followed
by a stored file write. -/
theorem c1_offset_consistency_witness :
    (∀ op ∈ [Op.opWriteDir "a", Op.opWriteFile "b.txt" [1, 2, 3] 0], op.isWriteEnd = false) ∧
    (runOps df0 (ZipArchiveWriter.init d0)
        [Op.opWriteDir "a", Op.opWriteFile "b.txt" [1, 2, 3] 0]).offset =
      chunkLenSum (runOps df0 (ZipArchiveWriter.init d0)
        [Op.opWriteDir "a", Op.opWriteFile "b.txt" [1, 2, 3] 0]).output :=
  ⟨by decide,
    (c1_offset_consistency df0 d0 [Op.opWriteDir "a", Op.opWriteFile "b.txt" [1, 2, 3] 0]
      (by decide)).1⟩

theorem splitSegs_ne_nil (l : List Char) : splitSegs l ≠ [] := by
  cases l with
  | nil => simp [splitSegs]
  | cons c cs =>
    rw [splitSegs]
    split
    · simp
    · cases hr : splitSegs cs <;> simp

theorem prefAux_length (rest : List String) :
    ∀ parent : String, (prefAux parent rest).length = rest.length := by
  induction rest with
  | nil => intro parent; rfl
  | cons c cs ih => intro parent; simp [prefAux, ih]

theorem prefAux_getD (rest : List String) :
    ∀ (parent : String) (k : Nat), k < rest.length →
      (prefAux parent rest).getD k "" = joinPath ((parent :: rest).take (k + 1)) ++ "/" := by
  induction rest with
  | nil => intro parent k hk; exact absurd hk (by simp)
  | cons c cs ih =>
    intro parent k hk
    cases k with
    | zero => rfl
    | succ j =>
      show (prefAux (parent ++ "/" ++ c) cs).getD j "" = _
      rw [ih (parent ++ "/" ++ c) j (by simpa using hk)]
      rfl

theorem write_reduce_eq (rest : List String) :
    ∀ (σ : ZipArchiveWriter) (parent : String),
      rest.foldl
          (fun a child => (ZipArchiveWriter.writeDir a.1 (a.2 ++ "/"), a.2 ++ "/" ++ child))
          (σ, parent) =
        (List.foldl ZipArchiveWriter.writeDir σ (prefAux parent rest),
          joinPath (parent :: rest)) := by
  induction rest with
  | nil => intro σ parent; rfl
  | cons c cs ih =>
    intro σ parent
    rw [List.foldl_cons]
    exact ih (σ.writeDir (parent ++ "/")) (parent ++ "/" ++ c)

/-- C5.  The helper `write` first feeds every proper directory prefix of
the path (shortest to longest, each with its trailing slash) to `writeDir`
and then calls `writeFile` on the full path; the prefix list has one entry
fewer than the path has segments, so the final segment is never passed to
`writeDir` (third conjunct: the k-th prefix joins only the first k+1
segments, and k+1 stays below the segment count). -/
theorem c5_write_expands_prefixes (df : Deflate) (σ : ZipArchiveWriter) (p : String)
    (b : List Nat) (l : Nat) (h : '/' ∈ p.data) :
    ZipArchiveWriter.write df σ p b l =
      ZipArchiveWriter.writeFile df (List.foldl ZipArchiveWriter.writeDir σ (properDirPrefixes p))
        p b l ∧
    (properDirPrefixes p).length + 1 = (splitOnSlash p).length ∧
    (∀ k, k < (properDirPrefixes p).length →
      (properDirPrefixes p).getD k "" = joinPath ((splitOnSlash p).take (k + 1)) ++ "/") := by
  cases hsplit : splitOnSlash p with
  | nil =>
    have h0 : splitSegs p.data = [] := by
      simpa [splitOnSlash] using congrArg List.length hsplit
    exact absurd h0 (splitSegs_ne_nil p.data)
  | cons p₀ rest =>
    refine ⟨?_, ?_, ?_⟩
    · unfold ZipArchiveWriter.write
      rw [hsplit]
      show ZipArchiveWriter.writeFile df
          (List.foldl
            (fun a child => (ZipArchiveWriter.writeDir a.1 (a.2 ++ "/"), a.2 ++ "/" ++ child))
            (σ, p₀) rest).1 p b l =
        ZipArchiveWriter.writeFile df
          (List.foldl ZipArchiveWriter.writeDir σ (properDirPrefixes p)) p b l
      rw [write_reduce_eq]
      unfold properDirPrefixes
      rw [hsplit]
    · simp [properDirPrefixes, hsplit, prefAux_length]
    · intro k hk
      rw [properDirPrefixes, hsplit] at hk ⊢
      exact prefAux_getD rest p₀ k (by simpa [prefAux_length] using hk)

/-- Witness for `c5_write_expands_prefixes` at the path `"a/b/c.txt"`. -/
theorem c5_write_expands_prefixes_witness :
    '/' ∈ "a/b/c.txt".data ∧
    ZipArchiveWriter.write df0 (ZipArchiveWriter.init d0) "a/b/c.txt" [1] 0 =
      ZipArchiveWriter.writeFile df0
        (List.foldl ZipArchiveWriter.writeDir (ZipArchiveWriter.init d0)
          (properDirPrefixes "a/b/c.txt")) "a/b/c.txt" [1] 0 :=
  ⟨by decide,
    (c5_write_expands_prefixes df0 (ZipArchiveWriter.init d0) "a/b/c.txt" [1] 0 (by decide)).1⟩

theorem localHeader_dateBytes (pb : List Nat) (d : DateTime) (fl : Bool) :
    ((createLocalFileHeader pb d fl).drop 10).take 4 = dosTimeDateBytes d := rfl

theorem centralHeader_dateBytes (pb : List Nat) (d : DateTime) (fl : Bool)
    (off us cs c : Nat) :
    ((createCentralDirHeader pb d fl off us cs c).drop 12).take 4 = dosTimeDateBytes d := rfl

theorem chunkDateOk_localHeader (d : DateTime) (pb : List Nat) (fl : Bool) :
    chunkDateOk d ⟨.localHeader, createLocalFileHeader pb d fl⟩ := by
  refine ⟨fun _ => localHeader_dateBytes pb d fl, ?_⟩
  exact fun hk => nomatch hk

theorem chunkDateOk_central (d : DateTime) (r : List Nat) (h : centralDateOk d r) :
    chunkDateOk d ⟨.centralDirHeader, r⟩ := by
  refine ⟨?_, fun _ => h⟩
  exact fun hk => nomatch hk

theorem chunkDateOk_other (d : DateTime) (c : Chunk) (h1 : c.kind ≠ .localHeader)
    (h2 : c.kind ≠ .centralDirHeader) : chunkDateOk d c := by
  refine ⟨fun hk => absurd hk h1, ?_⟩
  exact fun hk => absurd hk h2

theorem dateInv_init (d : DateTime) : dateInv d (ZipArchiveWriter.init d) := by
  refine ⟨rfl, ?_, ?_⟩ <;> intro x hx <;> exact absurd hx (List.not_mem_nil x)

theorem dateInv_writeDir (d : DateTime) (σ : ZipArchiveWriter) (p : String)
    (h : dateInv d σ) : dateInv d (σ.writeDir p) := by
  obtain ⟨hd, hcent, hout⟩ := h
  subst hd
  by_cases hmem : normDir p ∈ σ.dirs
  · rw [writeDir_mem σ p hmem]; exact ⟨rfl, hcent, hout⟩
  · rw [writeDir_not_mem σ p hmem]
    refine ⟨rfl, ?_, ?_⟩
    · intro r hr
      rcases List.mem_append.mp hr with hr | hr
      · exact hcent r hr
      · rw [List.mem_singleton.mp hr]
        exact centralHeader_dateBytes _ _ _ _ _ _ _
    · intro c hc
      rcases List.mem_append.mp hc with hc | hc
      · exact hout c hc
      · rw [List.mem_singleton.mp hc]
        exact chunkDateOk_localHeader _ _ _

theorem dateInv_writeFile (df : Deflate) (d : DateTime) (σ : ZipArchiveWriter) (p : String)
    (b : List Nat) (l : Nat) (h : dateInv d σ) :
    dateInv d (ZipArchiveWriter.writeFile df σ p b l) := by
  obtain ⟨hd, hcent, hout⟩ := h
  subst hd
  rw [writeFile_eq]
  refine ⟨rfl, ?_, ?_⟩
  · intro r hr
    rcases List.mem_append.mp hr with hr | hr
    · exact hcent r hr
    · rw [List.mem_singleton.mp hr]
      exact centralHeader_dateBytes _ _ _ _ _ _ _
  · intro c hc
    rcases List.mem_append.mp hc with hc | hc
    · exact hout c hc
    · rcases List.mem_cons.mp hc with hc | hc
      · rw [hc]; exact chunkDateOk_localHeader _ _ _
      · rcases List.mem_append.mp hc with hc | hc
        · obtain ⟨bb, _, hbb⟩ := List.mem_map.mp hc
          rw [← hbb]
          exact chunkDateOk_other _ _ (fun hk => nomatch hk) (fun hk => nomatch hk)
        · rw [List.mem_singleton.mp hc]
          exact chunkDateOk_other _ _ (fun hk => nomatch hk) (fun hk => nomatch hk)

theorem dateInv_writeEnd (d : DateTime) (σ : ZipArchiveWriter) (h : dateInv d σ) :
    dateInv d σ.writeEnd := by
  obtain ⟨hd, hcent, hout⟩ := h
  subst hd
  rw [writeEnd_eq]
  refine ⟨rfl, hcent, ?_⟩
  intro c hc
  rcases List.mem_append.mp hc with hc | hc
  · rcases List.mem_append.mp hc with hc | hc
    · exact hout c hc
    · obtain ⟨r, hr, hrc⟩ := List.mem_map.mp hc
      rw [← hrc]
      exact chunkDateOk_central _ r (hcent r hr)
  · rcases List.mem_cons.mp hc with hc | hc
    · rw [hc]; exact chunkDateOk_other _ _ (fun hk => nomatch hk) (fun hk => nomatch hk)
    · rw [List.mem_singleton.mp hc]
      exact chunkDateOk_other _ _ (fun hk => nomatch hk) (fun hk => nomatch hk)

theorem dateInv_runOps (df : Deflate) (d : DateTime) (ops : List Op) :
    ∀ σ : ZipArchiveWriter, dateInv d σ → dateInv d (runOps df σ ops) := by
  induction ops with
  | nil => intro σ h; exact h
  | cons op rest ih =>
    intro σ h
    show dateInv d (runOps df (runOp df σ op) rest)
    apply ih
    cases op with
    | opWriteDir p => exact dateInv_writeDir d σ p h
    | opWriteFile p b l => exact dateInv_writeFile df d σ p b l h
    | opWriteEnd => exact dateInv_writeEnd d σ h

/-- C9.  A single engine instance stamps every record with one and the same
date: after any call sequence (any order of writes and `writeEnd`,
quantified over the compressor) on an engine constructed at time `d`, the
stored date is still `d`, and every chunk the engine has emitted that is a
local file header carries the packed time/date encoding of `d` at bytes
10-13, and every emitted central-directory record carries it at bytes
12-15 — never the time of the individual write. -/
theorem c9_constant_timestamp (df : Deflate) (d : DateTime) (ops : List Op) (c : Chunk)
    (hc : c ∈ (runOps df (ZipArchiveWriter.init d) ops).output) :
    (runOps df (ZipArchiveWriter.init d) ops).date = d ∧
    (c.kind = .localHeader → (c.bytes.drop 10).take 4 = dosTimeDateBytes d) ∧
    (c.kind = .centralDirHeader → (c.bytes.drop 12).take 4 = dosTimeDateBytes d) := by
  have h := dateInv_runOps df d ops _ (dateInv_init d)
  exact ⟨h.1, (h.2.2 c hc).1, (h.2.2 c hc).2⟩

/-- Witness for `c9_constant_timestamp`: the local header emitted by a
single `writeDir "a"` carries the packed encoding of the construction
time. -/
theorem c9_constant_timestamp_witness :
    (⟨.localHeader, createLocalFileHeader (toBytes "a/") d0 false⟩ : Chunk) ∈
      (runOps df0 (ZipArchiveWriter.init d0) [Op.opWriteDir "a"]).output ∧
    ((createLocalFileHeader (toBytes "a/") d0 false).drop 10).take 4 = dosTimeDateBytes d0 :=
  ⟨by decide,
    (c9_constant_timestamp df0 d0 [Op.opWriteDir "a"]
      ⟨.localHeader, createLocalFileHeader (toBytes "a/") d0 false⟩ (by decide)).2.1 rfl⟩
